import Mathlib

/-!
Shallow embedding of the `SpeechRestAPI` class of NaturalVoiceSAPIAdapter
(`src/unnamed/part_000`, lines 1-431).

Strings (`std::wstring` / `std::string` / `std::string_view`) are modelled as
`List Char`; positions are `Nat` indices; `std::string::npos` results become
`Option Nat` (`none` = npos).  The two while-loops of `FindWord` and the
decode-worker loop of `Mp3Thread` are embedded as fuel-indexed structural
recursions; the fuel supplied at the top level is proved sufficient below
(the fuel-exhaustion branch mirrors the value the loop produces when its
search space is exhausted).
-/

namespace SpeechRestAPI

/-- `std::wstring_view::find(w, i)` scanning a suffix `t = s.drop i`, returning
the absolute index of the first match at or after `i` (`find` also matches an
empty needle at the end-of-string position, hence the check before the
destructuring of `t`). -/
def findSuffix (w : List Char) : List Char → Nat → Option Nat
  | t, i =>
    if (t.take w.length) = w then some i
    else
      match t with
      | [] => none
      | _ :: t2 => findSuffix w t2 (i + 1)

/-- `s.find(w, i)`: first occurrence of `w` in `s` at or after index `i`
(`none` = `npos`).  For `i > s.length`, `std::wstring_view::find` returns
`npos`. -/
def strFind (s w : List Char) (i : Nat) : Option Nat :=
  if i ≤ s.length then findSuffix w (s.drop i) i else none

/-- `s.find(c, i)` for a single character (lines 410, 418, 428). -/
def charFind (s : List Char) (c : Char) (i : Nat) : Option Nat :=
  strFind s [c] i

/-- One character of `XmlEscape` (lines 370-390). -/
def xmlEscapeChar (c : Char) : List Char :=
  if c = '<' then "&lt;".toList
  else if c = '>' then "&gt;".toList
  else if c = '&' then "&amp;".toList
  else if c = '"' then "&quot;".toList
  else if c = '\'' then "&apos;".toList
  else [c]

/-- `XmlEscape` (lines 370-390): escape `< > & " '` to their entity forms. -/
def XmlEscape : List Char → List Char
  | [] => []
  | c :: rest => xmlEscapeChar c ++ XmlEscape rest

/-- The inner `for (;;)` of `FindWord` (lines 407-424): scan `beforeWord` for
unmatched `<`/`>` pairs.  Returns `true` when every `<` has a matching `>`
(the candidate is accepted), `false` when some `<` has no following `>` (the
candidate lies inside a tag).  Each pass removes at least one character, so
fuel `beforeWord.length + 1` is sufficient (proved in `tagCheckAux_congr`);
the fuel-0 branch returns the value the loop gives an empty `beforeWord`. -/
def tagCheckAux : Nat → List Char → Bool
  | 0, _ => true
  | fuel + 1, beforeWord =>
    match charFind beforeWord '<' 0 with
    | none => true
    | some tagStart =>
      match charFind beforeWord '>' (tagStart + 1) with
      | none => false
      | some tagEnd => tagCheckAux fuel (beforeWord.drop (tagEnd + 1))

def tagCheck (beforeWord : List Char) : Bool :=
  tagCheckAux (beforeWord.length + 1) beforeWord

/-- The outer `while` of `FindWord` (lines 403-429), with the already-escaped
word.  Returns (result, new value of `lastPos`): on success `lastPos` becomes
`wordPos + word.length` (line 413); on `npos` the reference argument is left
unchanged.  A rejected candidate restarts at the next `'>'` at or after the
match end (line 428); when no `'>'` exists, `startpos` becomes `npos` and the
next `find` returns `npos`, exiting the loop, which the embedding renders as
returning `(none, lastPos)` directly.  Each rejected candidate strictly
increases `startpos` (proved in `findWordLoop_increases`), so fuel
`ssml.length + 1` is sufficient (`findWordLoopAux_congr`); the fuel-0 branch
returns the not-found value. -/
def findWordLoopAux (ssml word : List Char) (lastPos : Nat) : Nat → Nat → Option Nat × Nat
  | 0, _ => (none, lastPos)
  | fuel + 1, startpos =>
    match strFind ssml word startpos with
    | none => (none, lastPos)
    | some wordPos =>
      -- beforeWord = ssml.substr(startpos, wordPos - startpos), line 406
      if tagCheck ((ssml.drop startpos).take (wordPos - startpos)) then
        (some wordPos, wordPos + word.length)
      else
        match charFind ssml '>' (wordPos + word.length) with
        | none => (none, lastPos)
        | some p => findWordLoopAux ssml word lastPos fuel p

/-- `SpeechRestAPI::FindWord` (lines 396-431).  `utf8Word` is the word text
from the server; the stored input `ssml` is searched for its XML-escaped form.
Result: (found offset or `none`, updated `lastPos`). -/
def FindWord (ssml utf8Word : List Char) (lastPos : Nat) : Option Nat × Nat :=
  let word := XmlEscape utf8Word
  findWordLoopAux ssml word lastPos (ssml.length + 1) lastPos

/-- Result stored in the `std::promise` once resolved: `set_value()` on the
success path, `set_exception(e)` on the failure path; the exception payload is
abstracted as a numeric code. -/
inductive SpeakOutcome where
  | success
  | failure (e : Nat)
deriving DecidableEq

/-- `m_speakPromise` together with its `m_isPromiseSet` atomic once-flag. -/
structure PromiseState where
  isPromiseSet : Bool
  result : Option SpeakOutcome
deriving DecidableEq

/-- Fresh state after `SpeakAsync` resets the promise and clears the flag
(lines 78-79). -/
def freshPromise : PromiseState := ⟨false, none⟩

/-- `SpeakComplete` (lines 206-210): `test_and_set` returns the previous flag
value, so only the first caller stores a result. -/
def SpeakComplete (s : PromiseState) : PromiseState :=
  if s.isPromiseSet then s else ⟨true, some .success⟩

/-- `SpeakError` (lines 212-216). -/
def SpeakError (e : Nat) (s : PromiseState) : PromiseState :=
  if s.isPromiseSet then s else ⟨true, some (.failure e)⟩

/-- One completion trigger: a success-path or a failure-path invocation.  Any
interleaving of racing triggers is a sequence of these, since each C++ path is
serialized through the atomic `test_and_set`. -/
inductive Trigger where
  | complete
  | error (e : Nat)
deriving DecidableEq

def applyTrigger (s : PromiseState) : Trigger → PromiseState
  | .complete => SpeakComplete s
  | .error e => SpeakError e s

def applyTriggers (s : PromiseState) (ts : List Trigger) : PromiseState :=
  ts.foldl applyTrigger s

/-- Abstract JSON value (the external `nlohmann::json` collaborator): only
the shapes the handlers inspect. -/
inductive Json where
  | null
  | bool (b : Bool)
  | num (n : Nat)
  | str (s : List Char)
  | arr (elems : List Json)
  | obj (fields : List (List Char × Json))

def lookupField : List (List Char × Json) → List Char → Option Json
  | [], _ => none
  | (k, v) :: rest, key => if k = key then some v else lookupField rest key

/-- `json.at(key)`: `some` the field value, `none` when the access would throw
(missing key or non-object). -/
def jsonAt : Json → List Char → Option Json
  | .obj fields, key => lookupField fields key
  | _, _ => none

def objFields : Json → List (List Char × Json)
  | .obj fields => fields
  | _ => []

/-- Which of the optional callbacks are registered (non-null). -/
structure Callbacks where
  BookmarkCallback : Bool
  PunctuationBoundaryCallback : Bool
  SentenceBoundaryCallback : Bool
  WordBoundaryCallback : Bool
  VisemeCallback : Bool
  SessionEndCallback : Bool
deriving DecidableEq

/-- The `metadataOptions` object of the `speech.config` body (lines 256-262):
each flag is the non-nullness of the corresponding callback at `OnOpen` time. -/
def metadataOptions (cb : Callbacks) : Json :=
  .obj [
    ("bookmarkEnabled".toList, .bool cb.BookmarkCallback),
    ("punctuationBoundaryEnabled".toList, .bool cb.PunctuationBoundaryCallback),
    ("sentenceBoundaryEnabled".toList, .bool cb.SentenceBoundaryCallback),
    ("wordBoundaryEnabled".toList, .bool cb.WordBoundaryCallback),
    ("visemeEnabled".toList, .bool cb.VisemeCallback)]

/-- The whole JSON body of the `speech.config` message (lines 252-270). -/
def speechConfigJson (cb : Callbacks) : Json :=
  .obj [("context".toList, .obj [("synthesis".toList, .obj [
    ("audio".toList, .obj [
      ("metadataOptions".toList, metadataOptions cb),
      ("outputFormat".toList, .str "audio-24khz-96kbitrate-mono-mp3".toList)]),
    ("language".toList, .obj [("autoDetection".toList, .bool false)])])])]

/-- What the text branch of `OnMessage` does with one inbound message. -/
inductive TextMessageOutcome where
  | dropped
  | metadataDispatched (events : Json)
  | turnEnd
  | raised

/-- The text branch of `OnMessage` (lines 300-324).  `parseJson` models the
external `nlohmann::json::parse`, with `none` meaning the parse throws.  A
missing `Path:` marker or a missing `\r\n\r\n` terminator returns early
(`dropped`); an `audio.metadata` body that fails to parse, or parses without a
`Metadata` field, throws out of the handler (`raised`); a `turn.end` message
closes the connection and marks the queue done (`turnEnd`); any other path is
ignored (`dropped`). -/
def OnMessageText (parseJson : List Char → Option Json) (text : List Char) :
    TextMessageOutcome :=
  match strFind text ("Path:".toList) 0 with
  | none => .dropped
  | some markerPos =>
    -- pathStartPos = markerPos + 5, line 306
    match strFind text ("\r\n\r\n".toList) (markerPos + 5) with
    | none => .dropped
    | some pathEndPos =>
      -- path = text.substr(pathStartPos, pathEndPos - pathStartPos), line 310
      if (text.drop (markerPos + 5)).take (pathEndPos - (markerPos + 5))
          = "audio.metadata".toList then
        match parseJson (text.drop (pathEndPos + 4)) with
        | none => .raised
        | some j =>
          match jsonAt j ("Metadata".toList) with
          | none => .raised
          | some events => .metadataDispatched events
      else if (text.drop (markerPos + 5)).take (pathEndPos - (markerPos + 5))
          = "turn.end".toList then .turnEnd
      else .dropped

/-- `AsioThread` (lines 122-138): an exception escaping a handler is caught
and routed to `SpeakError`, and the IO loop is re-entered; outcomes that do
not throw leave the promise untouched. -/
def asioHandleOutcome (e : Nat) (p : PromiseState) : TextMessageOutcome → PromiseState
  | .raised => SpeakError e p
  | _ => p

/-- Shared pipeline state: the queue and its flags (`m_mp3Queue`,
`m_mp3QueueDone`, `m_isStopping`), the session promise, and the stream of byte
chunks handed to `Mp3Decoder::Convert` by the decode worker. -/
structure Mp3State where
  mp3Queue : List (List Char)
  mp3QueueDone : Bool
  isStopping : Bool
  promise : PromiseState
  decoded : List (List Char)
deriving DecidableEq

/-- The literal `Path:audio\r\n` marker of lines 170-176 (12 characters). -/
def audioMarker : List Char := "Path:audio\r\n".toList

/-- Header stripping in `Mp3Thread` (lines 169-176): skip the 2-byte length
prefix, then audio bytes start right after the first `Path:audio\r\n`; a
message without the marker yields nothing for the decoder (`continue`). -/
def extractAudio (msg : List Char) : Option (List Char) :=
  -- mp3data = msg with the first 2 bytes removed, line 173
  match strFind (msg.drop 2) audioMarker 0 with
  | none => none
  | some delimPos => some ((msg.drop 2).drop (delimPos + 12))

/-- `Mp3QueuePush` (lines 188-195). -/
def Mp3QueuePush (s : Mp3State) (msg : List Char) : Mp3State :=
  { s with mp3Queue := s.mp3Queue ++ [msg] }

/-- The binary branch of `OnMessage` (lines 295-299): the raw payload is
queued verbatim, unconditionally. -/
def OnMessageBinary (s : Mp3State) (msg : List Char) : Mp3State :=
  Mp3QueuePush s msg

/-- `Mp3QueueDone` (lines 197-204). -/
def Mp3QueueDone (s : Mp3State) : Mp3State :=
  { s with mp3QueueDone := true }

/-- The pipeline part of `Stop` (lines 95-100): clear the unread queue and
mark it done, waking the worker. -/
def Stop (s : Mp3State) : Mp3State :=
  { s with mp3Queue := [], mp3QueueDone := true }

/-- One pass of the `Mp3Thread` worker loop (lines 145-185): on stop, exit
(no further state change); on an empty queue with the done flag set, fire
`SpeakComplete`, re-create the decoder and clear the flag, then wait; on an
empty queue otherwise, wait; else dequeue one message, strip its header and
feed the audio bytes (if any) to the decoder. -/
def mp3Iter (s : Mp3State) : Mp3State :=
  if s.isStopping then s
  else
    match s.mp3Queue with
    | [] =>
      if s.mp3QueueDone then
        { s with promise := SpeakComplete s.promise, mp3QueueDone := false }
      else s
    | msg :: rest =>
      match extractAudio msg with
      | none => { s with mp3Queue := rest }
      | some a => { s with mp3Queue := rest, decoded := s.decoded ++ [a] }

/-- `n` passes of the worker loop. -/
def mp3Run : Nat → Mp3State → Mp3State
  | 0, s => s
  | n + 1, s => mp3Run n (mp3Iter s)

/-- A parsed metadata object: type tag, audio offset and the type-specific
payload read at lines 329-367. -/
inductive BoundaryEvent where
  | viseme (offset visemeId : Nat)
  | wordBoundary (isPunctuation : Bool) (offset : Nat) (text : List Char) (length : Nat)
  | sentenceBoundary (offset : Nat) (text : List Char) (length : Nat)
  | sessionEnd (offset : Nat)
  | bookmark (offset : Nat) (name : List Char)

/-- The two session cursors (`m_lastWordPos`, `m_lastSentencePos`). -/
structure SessionState where
  lastWordPos : Nat
  lastSentencePos : Nat
deriving DecidableEq

/-- Cursor effect of `OnSynthEvent` (lines 327-368): `WordBoundary` events of
either kind advance the word cursor through `FindWord`, `SentenceBoundary`
events advance the sentence cursor, in each case only when the corresponding
callback is registered (otherwise `FindWord` is not even called); the other
event types touch neither cursor. -/
def OnSynthEvent (cb : Callbacks) (ssml : List Char) (s : SessionState) :
    BoundaryEvent → SessionState
  | .viseme _ _ => s
  | .wordBoundary isPunctuation _ text _ =>
    if isPunctuation then
      if cb.PunctuationBoundaryCallback then
        { s with lastWordPos := (FindWord ssml text s.lastWordPos).2 }
      else s
    else
      if cb.WordBoundaryCallback then
        { s with lastWordPos := (FindWord ssml text s.lastWordPos).2 }
      else s
  | .sentenceBoundary _ text _ =>
    if cb.SentenceBoundaryCallback then
      { s with lastSentencePos := (FindWord ssml text s.lastSentencePos).2 }
    else s
  | .sessionEnd _ => s
  | .bookmark _ _ => s

/-- A successful `findSuffix w t i = some j` finds a match: `j` is at or after
`i`, within the scanned suffix, the needle matches there, and no earlier
position at or after `i` matches. -/
theorem findSuffix_some (w : List Char) :
    ∀ (t : List Char) (i j : Nat), findSuffix w t i = some j →
      i ≤ j ∧ j - i ≤ t.length ∧ (t.drop (j - i)).take w.length = w ∧
      ∀ k, i ≤ k → k < j → ¬ (t.drop (k - i)).take w.length = w := by
  intro t
  induction t with
  | nil =>
    intro i j h
    unfold findSuffix at h
    by_cases hc : (([] : List Char).take w.length) = w
    · rw [if_pos hc] at h
      injection h with h
      subst h
      exact ⟨Nat.le_refl i, by simp, by simpa using hc,
        fun k hk1 hk2 => absurd hk2 (by omega)⟩
    · rw [if_neg hc] at h
      exact absurd h (by simp)
  | cons c t2 ih =>
    intro i j h
    unfold findSuffix at h
    by_cases hc : (((c :: t2).take w.length)) = w
    · rw [if_pos hc] at h
      injection h with h
      subst h
      exact ⟨Nat.le_refl i, by simp, by simpa using hc,
        fun k hk1 hk2 => absurd hk2 (by omega)⟩
    · rw [if_neg hc] at h
      obtain ⟨h1, h2, h3, h4⟩ := ih (i + 1) j h
      refine ⟨by omega, by simp only [List.length_cons]; omega, ?_, ?_⟩
      · have he : j - i = (j - (i + 1)) + 1 := by omega
        rw [he, List.drop_succ_cons]
        exact h3
      · intro k hk1 hk2 hmatch
        rcases Nat.lt_or_ge k (i + 1) with hl | hg
        · have hki : k = i := by omega
          subst hki
          rw [Nat.sub_self, List.drop_zero] at hmatch
          exact hc hmatch
        · have he : k - i = (k - (i + 1)) + 1 := by omega
          rw [he, List.drop_succ_cons] at hmatch
          exact h4 k hg hk2 hmatch

/-- Characterization of a successful `find`: the hit is at or after the start
index, in bounds, an actual match, and the first such match. -/
theorem strFind_some {s w : List Char} {i j : Nat} (h : strFind s w i = some j) :
    i ≤ j ∧ j ≤ s.length ∧ j + w.length ≤ s.length ∧ (s.drop j).take w.length = w ∧
      ∀ k, i ≤ k → k < j → ¬ (s.drop k).take w.length = w := by
  unfold strFind at h
  by_cases hi : i ≤ s.length
  · rw [if_pos hi] at h
    obtain ⟨h1, h2, h3, h4⟩ := findSuffix_some w (s.drop i) i j h
    rw [List.length_drop] at h2
    have hj : j ≤ s.length := by omega
    have hd : (s.drop i).drop (j - i) = s.drop j := by
      rw [List.drop_drop]
      congr 1
      omega
    rw [hd] at h3
    have hlen : j + w.length ≤ s.length := by
      have hlt := congrArg List.length h3
      simp only [List.length_take, List.length_drop] at hlt
      have := hlt ▸ Nat.min_le_right w.length (s.length - j)
      omega
    refine ⟨h1, hj, hlen, h3, ?_⟩
    intro k hk1 hk2 hmatch
    have hdk : (s.drop i).drop (k - i) = s.drop k := by
      rw [List.drop_drop]
      congr 1
      omega
    exact h4 k hk1 hk2 (by rw [hdk]; exact hmatch)
  · rw [if_neg hi] at h
    exact absurd h (by simp)

/-- `find` past the end of the string returns `npos`. -/
theorem strFind_none_of_gt {s w : List Char} {i : Nat} (h : s.length < i) :
    strFind s w i = none := by
  unfold strFind
  rw [if_neg (by omega)]

/-- The tag scan accepts an empty scan region at every fuel value. -/
theorem tagCheckAux_empty : ∀ f, tagCheckAux f [] = true := by
  intro f
  cases f with
  | zero => rfl
  | succ g => rfl

/-- Any two sufficient fuels give the tag scan the same result: the loop of
lines 407-424 terminates within `beforeWord.length` passes. -/
theorem tagCheckAux_congr : ∀ (n : Nat) (bw : List Char) (f1 f2 : Nat), bw.length ≤ n →
    bw.length ≤ f1 → bw.length ≤ f2 → tagCheckAux f1 bw = tagCheckAux f2 bw := by
  intro n
  induction n with
  | zero =>
    intro bw f1 f2 hn _ _
    have hbw : bw = [] := List.eq_nil_of_length_eq_zero (by omega)
    subst hbw
    rw [tagCheckAux_empty, tagCheckAux_empty]
  | succ n ih =>
    intro bw f1 f2 hn h1 h2
    cases bw with
    | nil => rw [tagCheckAux_empty, tagCheckAux_empty]
    | cons c rest =>
      cases f1 with
      | zero => simp at h1
      | succ g1 =>
        cases f2 with
        | zero => simp at h2
        | succ g2 =>
          unfold tagCheckAux
          cases hS : charFind (c :: rest) '<' 0 with
          | none => simp [hS]
          | some tagStart =>
            cases hE : charFind (c :: rest) '>' (tagStart + 1) with
            | none => simp [hS, hE]
            | some tagEnd =>
              simp only [hS, hE]
              unfold charFind at hE
              obtain ⟨-, -, hb, -, -⟩ := strFind_some hE
              simp only [List.length_cons, List.length_singleton] at hb hn h1 h2
              apply ih
              · simp only [List.length_drop, List.length_cons]
                omega
              · simp only [List.length_drop, List.length_cons]
                omega
              · simp only [List.length_drop, List.length_cons]
                omega

/-- When the word has no occurrence at or after `startpos`, the outer loop
exits at once with `npos`, leaving `lastPos` unchanged, at every fuel value. -/
theorem findWordLoopAux_none {ssml word : List Char} {lastPos startpos : Nat}
    (h : strFind ssml word startpos = none) :
    ∀ f, findWordLoopAux ssml word lastPos f startpos = (none, lastPos) := by
  intro f
  cases f with
  | zero => rfl
  | succ g =>
    unfold findWordLoopAux
    simp [h]

/-- A scan region rejected by the tag check is nonempty, so a rejected
candidate lies strictly after the iteration's start position. -/
theorem tagCheck_false_lt {ssml : List Char} {startpos wordPos : Nat}
    (h : tagCheck ((ssml.drop startpos).take (wordPos - startpos)) = false) :
    startpos < wordPos := by
  by_contra hle
  push_neg at hle
  rw [Nat.sub_eq_zero_of_le hle, List.take_zero] at h
  rw [tagCheck] at h
  rw [tagCheckAux_empty] at h
  exact Bool.noConfusion h

/-- Rejecting a candidate strictly advances the restart position: the `'>'`
found at or after the end of the rejected match (line 428) lies strictly after
the iteration's start position and strictly inside the text. -/
theorem findWordLoop_increases {ssml word : List Char} {startpos wordPos p : Nat}
    (h2 : tagCheck ((ssml.drop startpos).take (wordPos - startpos)) = false)
    (h3 : strFind ssml ['>'] (wordPos + word.length) = some p) :
    startpos < p ∧ p < ssml.length := by
  have hw : startpos < wordPos := tagCheck_false_lt h2
  obtain ⟨hp1, hp2, hp3, -, -⟩ := strFind_some h3
  simp only [List.length_singleton] at hp3
  exact ⟨by omega, by omega⟩

/-- Any two sufficient fuels give the candidate loop the same result: the loop
of lines 403-429 terminates within `ssml.length + 1 - startpos` iterations. -/
theorem findWordLoopAux_congr :
    ∀ (n : Nat) (ssml word : List Char) (lastPos startpos f1 f2 : Nat),
    ssml.length + 1 - startpos ≤ n →
    ssml.length + 1 - startpos ≤ f1 → ssml.length + 1 - startpos ≤ f2 →
    findWordLoopAux ssml word lastPos f1 startpos
      = findWordLoopAux ssml word lastPos f2 startpos := by
  intro n
  induction n with
  | zero =>
    intro ssml word lastPos startpos f1 f2 hn _ _
    have hgt : ssml.length < startpos := by omega
    rw [findWordLoopAux_none (strFind_none_of_gt hgt),
      findWordLoopAux_none (strFind_none_of_gt hgt)]
  | succ n ih =>
    intro ssml word lastPos startpos f1 f2 hn h1 h2
    by_cases hgt : ssml.length < startpos
    · rw [findWordLoopAux_none (strFind_none_of_gt hgt),
        findWordLoopAux_none (strFind_none_of_gt hgt)]
    · push_neg at hgt
      cases f1 with
      | zero => omega
      | succ g1 =>
        cases f2 with
        | zero => omega
        | succ g2 =>
          unfold findWordLoopAux
          cases hS : strFind ssml word startpos with
          | none => simp [hS]
          | some wordPos =>
            simp only [hS]
            cases hT : tagCheck ((ssml.drop startpos).take (wordPos - startpos)) with
            | true => simp [hT]
            | false =>
              simp only [hT, Bool.false_eq_true, if_false]
              cases hG : charFind ssml '>' (wordPos + word.length) with
              | none => simp [hG]
              | some p =>
                simp only [hG]
                unfold charFind at hG
                obtain ⟨hlt, hub⟩ := findWordLoop_increases hT hG
                apply ih
                · omega
                · omega
                · omega

/-- The updated `lastPos` never drops below the value passed in, at any fuel,
for any start position at or after it. -/
theorem findWordLoopAux_snd_mono :
    ∀ (f : Nat) (ssml word : List Char) (lastPos startpos : Nat), lastPos ≤ startpos →
      lastPos ≤ (findWordLoopAux ssml word lastPos f startpos).2 := by
  intro f
  induction f with
  | zero =>
    intro ssml word lastPos startpos _
    exact Nat.le_refl lastPos
  | succ g ih =>
    intro ssml word lastPos startpos h
    unfold findWordLoopAux
    cases hS : strFind ssml word startpos with
    | none => exact Nat.le_refl lastPos
    | some wordPos =>
      obtain ⟨hge, -, -, -, -⟩ := strFind_some hS
      cases hT : tagCheck ((ssml.drop startpos).take (wordPos - startpos)) with
      | true =>
        simp only [hT, if_true]
        show lastPos ≤ wordPos + word.length
        omega
      | false =>
        simp only [hT, Bool.false_eq_true, if_false]
        cases hG : charFind ssml '>' (wordPos + word.length) with
        | none => exact Nat.le_refl lastPos
        | some p =>
          unfold charFind at hG
          obtain ⟨hpg, -, -, -, -⟩ := strFind_some hG
          exact ih ssml word lastPos p (by omega)

/-- When the loop reports `npos`, the reference argument `lastPos` was never
assigned (the only write is on the success exit, line 413). -/
theorem findWordLoopAux_fst_none :
    ∀ (f : Nat) (ssml word : List Char) (lastPos startpos : Nat),
      (findWordLoopAux ssml word lastPos f startpos).1 = none →
      (findWordLoopAux ssml word lastPos f startpos).2 = lastPos := by
  intro f
  induction f with
  | zero =>
    intro ssml word lastPos startpos _
    rfl
  | succ g ih =>
    intro ssml word lastPos startpos h
    unfold findWordLoopAux at h ⊢
    cases hS : strFind ssml word startpos with
    | none => rfl
    | some wordPos =>
      rw [hS] at h
      cases hT : tagCheck ((ssml.drop startpos).take (wordPos - startpos)) with
      | true =>
        simp [hT] at h
      | false =>
        simp only [hT, Bool.false_eq_true, if_false] at h ⊢
        cases hG : charFind ssml '>' (wordPos + word.length) with
        | none => rfl
        | some p =>
          rw [hG] at h
          exact ih ssml word lastPos p h

/-- C2 counterexample: for the markup `A <b>word</b> word end`, locating
`word` from cursor 0 does NOT return 14.  The code accepts the occurrence at
index 5 — the element text between `<b>` and `</b>` — because every `<`
before it is matched by a `>`; the tag check only rejects occurrences lying
inside a tag. -/
theorem C2_locator_counterexample :
    (FindWord ("A <b>word</b> word end".toList) ("word".toList) 0).1 ≠ some 14
    ∧ (FindWord ("A <b>word</b> word end".toList) ("word".toList) 0).1 = some 5 := by
  decide

/-- C2 amended: for markup `A <b>word</b> word end`, locating `word` from
cursor 0 returns the offset of the first `word` (index 5, between `<b>` and
`</b>`) and advances the cursor to 9, just past the match: occurrences in
element text after a matched `<`..`>` pair are accepted, not skipped. -/
theorem C2_locator_amended :
    FindWord ("A <b>word</b> word end".toList) ("word".toList) 0 = (some 5, 9) := by
  decide

/-- C6: whenever the locator reports not-found, the cursor retains its
previous value.  First conjunct: a word whose escaped form has no occurrence
at or after the cursor yields `(none, lastPos)` — in particular a word not
present at all.  Second conjunct: every not-found result leaves the cursor
unchanged, since the loop's only cursor write is on the success exit. -/
theorem C6_notfound_leaves_cursor :
    ∀ (ssml utf8Word : List Char) (lastPos : Nat),
      (strFind ssml (XmlEscape utf8Word) lastPos = none →
        FindWord ssml utf8Word lastPos = (none, lastPos))
      ∧ ((FindWord ssml utf8Word lastPos).1 = none →
        (FindWord ssml utf8Word lastPos).2 = lastPos) := by
  intro ssml utf8Word lastPos
  constructor
  · intro h
    exact findWordLoopAux_none h _
  · intro h
    exact findWordLoopAux_fst_none _ _ _ _ _ h

/-- C6 witness at a concrete input: `xyz` does not occur in `abc`, so locate
returns not-found and the cursor stays 0. -/
theorem C6_notfound_leaves_cursor_witness :
    FindWord ("abc".toList) ("xyz".toList) 0 = (none, 0)
    ∧ (FindWord ("abc".toList) ("xyz".toList) 0).2 = 0 :=
  ⟨(C6_notfound_leaves_cursor ("abc".toList) ("xyz".toList) 0).1 (by decide),
   (C6_notfound_leaves_cursor ("abc".toList) ("xyz".toList) 0).2 (by decide)⟩

/-- C7: within a session both cursors are monotonically non-decreasing: a
locate call never moves the cursor backward (success or not-found), and no
boundary-event dispatch moves the word or the sentence cursor backward. -/
theorem C7_cursors_monotonic :
    ∀ (ssml utf8Word : List Char) (c : Nat) (cb : Callbacks) (s : SessionState)
      (ev : BoundaryEvent),
      c ≤ (FindWord ssml utf8Word c).2
      ∧ s.lastWordPos ≤ (OnSynthEvent cb ssml s ev).lastWordPos
      ∧ s.lastSentencePos ≤ (OnSynthEvent cb ssml s ev).lastSentencePos := by
  intro ssml utf8Word c cb s ev
  have hmono : ∀ (w : List Char) (c0 : Nat), c0 ≤ (FindWord ssml w c0).2 :=
    fun w c0 => findWordLoopAux_snd_mono _ _ _ _ _ (Nat.le_refl c0)
  refine ⟨hmono utf8Word c, ?_, ?_⟩
  · cases ev with
    | viseme o v => exact Nat.le_refl _
    | wordBoundary ip o text len =>
      simp only [OnSynthEvent]
      split
      · split
        · exact hmono text s.lastWordPos
        · exact Nat.le_refl _
      · split
        · exact hmono text s.lastWordPos
        · exact Nat.le_refl _
    | sentenceBoundary o text len =>
      simp only [OnSynthEvent]
      split
      · exact Nat.le_refl _
      · exact Nat.le_refl _
    | sessionEnd o => exact Nat.le_refl _
    | bookmark o nm => exact Nat.le_refl _
  · cases ev with
    | viseme o v => exact Nat.le_refl _
    | wordBoundary ip o text len =>
      simp only [OnSynthEvent]
      split
      · split
        · exact Nat.le_refl _
        · exact Nat.le_refl _
      · split
        · exact Nat.le_refl _
        · exact Nat.le_refl _
    | sentenceBoundary o text len =>
      simp only [OnSynthEvent]
      split
      · exact hmono text s.lastSentencePos
      · exact Nat.le_refl _
    | sessionEnd o => exact Nat.le_refl _
    | bookmark o nm => exact Nat.le_refl _

/-- C10: the locate operation terminates.  Whenever a candidate is rejected,
the restart position strictly increases and stays inside the text (third
conjunct), so each loop makes no more passes than the input length allows:
giving the tag scan any fuel of at least `beforeWord.length`, or the candidate
loop any fuel of at least `ssml.length + 1 - startpos`, leaves every result
unchanged (first two conjuncts). -/
theorem C10_locator_terminates :
    (∀ (bw : List Char) (f : Nat), bw.length ≤ f → tagCheckAux f bw = tagCheck bw)
    ∧ (∀ (ssml word : List Char) (lastPos startpos f : Nat),
        ssml.length + 1 - startpos ≤ f →
        findWordLoopAux ssml word lastPos f startpos
          = findWordLoopAux ssml word lastPos (ssml.length + 1) startpos)
    ∧ (∀ (ssml word : List Char) (startpos wordPos p : Nat),
        strFind ssml word startpos = some wordPos →
        tagCheck ((ssml.drop startpos).take (wordPos - startpos)) = false →
        strFind ssml ['>'] (wordPos + word.length) = some p →
        startpos < p ∧ p < ssml.length) := by
  refine ⟨?_, ?_, ?_⟩
  · intro bw f h
    exact tagCheckAux_congr bw.length bw f (bw.length + 1) (Nat.le_refl _) h (by omega)
  · intro ssml word lastPos startpos f h
    exact findWordLoopAux_congr (ssml.length + 1 - startpos) ssml word lastPos startpos f
      (ssml.length + 1) (Nat.le_refl _) h (by omega)
  · intro ssml word startpos wordPos p h1 h2 h3
    exact findWordLoop_increases h2 h3

/-- C10 witness: a concrete rejected candidate in `<a word="x"> word` (the
`word` at index 3 sits inside the unclosed tag opened at index 0); the restart
position 11 (the `>`) strictly exceeds the start position 0 and lies inside
the 17-character text, and larger fuels change neither loop's result. -/
theorem C10_locator_terminates_witness :
    tagCheckAux 7 ("ab".toList) = tagCheck ("ab".toList)
    ∧ findWordLoopAux ("<a word=\"x\"> word".toList) ("word".toList) 0 99 0
        = findWordLoopAux ("<a word=\"x\"> word".toList) ("word".toList) 0 18 0
    ∧ ((0 : Nat) < 11 ∧ 11 < ("<a word=\"x\"> word".toList).length) :=
  ⟨C10_locator_terminates.1 ("ab".toList) 7 (by decide),
   C10_locator_terminates.2.1 ("<a word=\"x\"> word".toList) ("word".toList) 0 0 99 (by decide),
   C10_locator_terminates.2.2 ("<a word=\"x\"> word".toList) ("word".toList) 0 3 11
     (by decide) (by decide) (by decide)⟩

/-- Once the flag is set, both completion paths are no-ops. -/
theorem applyTrigger_of_set {s : PromiseState} (h : s.isPromiseSet = true) (u : Trigger) :
    applyTrigger s u = s := by
  cases u with
  | complete => simp [applyTrigger, SpeakComplete, h]
  | error e => simp [applyTrigger, SpeakError, h]

/-- Either completion path leaves the once-flag set. -/
theorem applyTrigger_sets (s : PromiseState) (u : Trigger) :
    (applyTrigger s u).isPromiseSet = true := by
  cases u with
  | complete =>
    simp only [applyTrigger, SpeakComplete]
    split
    · assumption
    · rfl
  | error e =>
    simp only [applyTrigger, SpeakError]
    split
    · assumption
    · rfl

/-- A resolved promise absorbs any further run of triggers. -/
theorem applyTriggers_of_set :
    ∀ (ts : List Trigger) (s : PromiseState), s.isPromiseSet = true →
      applyTriggers s ts = s := by
  intro ts
  induction ts with
  | nil =>
    intro s _
    rfl
  | cons u rest ih =>
    intro s h
    show applyTriggers (applyTrigger s u) rest = s
    rw [applyTrigger_of_set h]
    exact ih s h

/-- C1: the completion handle is resolved exactly once.  Starting from the
fresh per-session state, the first trigger — success or failure — sets the
once-flag and stores the matching result; a whole run of racing triggers is
therefore determined by its first one; and after any trigger has been applied
to any state, every further trigger of either kind is a no-op that leaves the
stored result unchanged. -/
theorem C1_promise_resolved_once :
    ∀ (t : Trigger) (ts : List Trigger),
      applyTrigger freshPromise t
        = ⟨true, some (match t with | .complete => .success | .error e => .failure e)⟩
      ∧ applyTriggers freshPromise (t :: ts) = applyTrigger freshPromise t
      ∧ ∀ (s : PromiseState) (u v : Trigger),
          applyTrigger (applyTrigger s u) v = applyTrigger s u := by
  intro t ts
  refine ⟨?_, ?_, ?_⟩
  · cases t with
    | complete => rfl
    | error e => rfl
  · show applyTriggers (applyTrigger freshPromise t) ts = applyTrigger freshPromise t
    exact applyTriggers_of_set ts _ (applyTrigger_sets _ _)
  · intro s u v
    exact applyTrigger_of_set (applyTrigger_sets s u) v

/-- C3 counterexample: a text message with a well-formed header whose body
parses as JSON (here to `null`, as `nlohmann` parses the body `null`) but has
no `Metadata` field is NOT silently dropped — the `.at` access throws, the
network thread catches the exception (lines 132-136), and that single message
resolves the session's completion handle with an error. -/
theorem C3_malformed_counterexample :
    OnMessageText (fun _ => some Json.null) ("Path:audio.metadata\r\n\r\nnull".toList) = .raised
    ∧ asioHandleOutcome 0 freshPromise .raised ≠ freshPromise := by
  exact ⟨rfl, by decide⟩

/-- C3 amended: messages missing the `Path:` marker or the `\r\n\r\n`
terminator are silently dropped, with no dispatch and no effect on the
completion handle.  But an `audio.metadata` message whose body fails JSON
parsing, or parses without the `Metadata` field, raises out of the handler;
the network thread routes the exception to the failure path, which resolves
the completion handle with an error when it was not already resolved. -/
theorem C3_malformed_amended :
    ∀ (parseJson : List Char → Option Json) (text : List Char) (e : Nat) (p : PromiseState),
      (strFind text ("Path:".toList) 0 = none → OnMessageText parseJson text = .dropped)
      ∧ (∀ i, strFind text ("Path:".toList) 0 = some i →
          strFind text ("\r\n\r\n".toList) (i + 5) = none →
          OnMessageText parseJson text = .dropped)
      ∧ (OnMessageText parseJson text = .dropped →
          asioHandleOutcome e p (OnMessageText parseJson text) = p)
      ∧ (OnMessageText parseJson text = .raised →
          asioHandleOutcome e p (OnMessageText parseJson text) = SpeakError e p) := by
  intro parseJson text e p
  refine ⟨?_, ?_, ?_, ?_⟩
  · intro h
    unfold OnMessageText
    rw [h]
  · intro i h1 h2
    unfold OnMessageText
    simp only [h1, h2]
  · intro h
    rw [h]
    rfl
  · intro h
    rw [h]
    rfl

/-- C3 amended witness: `hello` carries no `Path:` marker, so it is dropped
and the fresh promise is untouched. -/
theorem C3_malformed_amended_witness :
    OnMessageText (fun _ => some Json.null) ("hello".toList) = .dropped
    ∧ asioHandleOutcome 0 freshPromise
        (OnMessageText (fun _ => some Json.null) ("hello".toList)) = freshPromise :=
  ⟨(C3_malformed_amended (fun _ => some Json.null) ("hello".toList) 0 freshPromise).1 (by decide),
   (C3_malformed_amended (fun _ => some Json.null) ("hello".toList) 0 freshPromise).2.2.1
     ((C3_malformed_amended (fun _ => some Json.null) ("hello".toList) 0 freshPromise).1
       (by decide))⟩

/-- C4: the `speech.config` body carries exactly the five metadata-option
booleans, each true iff the corresponding callback is registered at `OnOpen`
time, and registering only the word-boundary callback yields
`wordBoundaryEnabled` true with the other four false. -/
theorem C4_config_flags_mirror_callbacks :
    ∀ cb : Callbacks,
      (objFields (metadataOptions cb)).length = 5
      ∧ jsonAt (metadataOptions cb) ("bookmarkEnabled".toList)
          = some (.bool cb.BookmarkCallback)
      ∧ jsonAt (metadataOptions cb) ("punctuationBoundaryEnabled".toList)
          = some (.bool cb.PunctuationBoundaryCallback)
      ∧ jsonAt (metadataOptions cb) ("sentenceBoundaryEnabled".toList)
          = some (.bool cb.SentenceBoundaryCallback)
      ∧ jsonAt (metadataOptions cb) ("wordBoundaryEnabled".toList)
          = some (.bool cb.WordBoundaryCallback)
      ∧ jsonAt (metadataOptions cb) ("visemeEnabled".toList)
          = some (.bool cb.VisemeCallback)
      ∧ ((jsonAt (speechConfigJson cb) ("context".toList)).bind
            (fun j => (jsonAt j ("synthesis".toList)).bind
              (fun j => (jsonAt j ("audio".toList)).bind
                (fun j => jsonAt j ("metadataOptions".toList)))))
          = some (metadataOptions cb)
      ∧ metadataOptions ⟨false, false, false, true, false, false⟩
          = .obj [
              ("bookmarkEnabled".toList, .bool false),
              ("punctuationBoundaryEnabled".toList, .bool false),
              ("sentenceBoundaryEnabled".toList, .bool false),
              ("wordBoundaryEnabled".toList, .bool true),
              ("visemeEnabled".toList, .bool false)] := by
  intro cb
  exact ⟨rfl, rfl, rfl, rfl, rfl, rfl, rfl, rfl⟩

/-- C5 counterexample: a binary message lacking the `Path:audio\r\n` marker
is NOT discarded without enqueue — the binary branch of `OnMessage` enqueues
every payload verbatim, and the marker test happens only in the decode worker
after dequeue.  (None of its bytes reach the decoder, though: the worker's
extraction yields nothing for it.) -/
theorem C5_binary_counterexample :
    strFind (("XXno audio marker".toList).drop 2) audioMarker 0 = none
    ∧ (OnMessageBinary ⟨[], false, false, freshPromise, []⟩
        ("XXno audio marker".toList)).mp3Queue = ["XXno audio marker".toList]
    ∧ extractAudio ("XXno audio marker".toList) = none := by
  exact ⟨by decide, rfl, rfl⟩

/-- C5 amended: every inbound binary message is enqueued verbatim,
unconditionally.  The decode worker then skips the 2-byte prefix and searches
for the first `Path:audio\r\n`: when the marker is absent, the dequeued
message is skipped and none of its bytes reach the decoder; when it is
present, first at position `d`, exactly the bytes after the marker are fed to
the decoder, and no earlier position matches the marker. -/
theorem C5_binary_amended :
    ∀ (s : Mp3State) (msg : List Char) (dec : List (List Char)) (p : PromiseState),
      (OnMessageBinary s msg).mp3Queue = s.mp3Queue ++ [msg]
      ∧ (mp3Iter ⟨[msg], false, false, p, dec⟩).decoded
          = dec ++ (match strFind (msg.drop 2) audioMarker 0 with
                    | none => []
                    | some d => [(msg.drop 2).drop (d + 12)])
      ∧ (∀ d, strFind (msg.drop 2) audioMarker 0 = some d →
          ∀ k, k < d → ¬ ((msg.drop 2).drop k).take audioMarker.length = audioMarker) := by
  intro s msg dec p
  refine ⟨rfl, ?_, ?_⟩
  · unfold mp3Iter
    simp only [extractAudio]
    cases hE : strFind (msg.drop 2) audioMarker 0 with
    | none => simp
    | some d => simp
  · intro d h k hk
    obtain ⟨-, -, -, -, hmin⟩ := strFind_some h
    exact hmin k (Nat.zero_le k) hk

/-- C5 amended witness: in `ABxPath:audio\r\nD` the marker first occurs at
position 1 of the prefix-stripped view, so position 0 does not match it. -/
theorem C5_binary_amended_witness :
    ¬ ((("ABxPath:audio\r\nD".toList).drop 2).drop 0).take audioMarker.length = audioMarker :=
  (C5_binary_amended ⟨[], false, false, freshPromise, []⟩ ("ABxPath:audio\r\nD".toList)
    [] freshPromise).2.2 1 (by decide) 0 (by decide)

/-- From any state whose queue is empty, further worker passes never feed the
decoder and never repopulate the queue. -/
theorem mp3Run_empty_queue :
    ∀ (n : Nat) (t : Mp3State), t.mp3Queue = [] →
      (mp3Run n t).decoded = t.decoded ∧ (mp3Run n t).mp3Queue = [] := by
  intro n
  induction n with
  | zero =>
    intro t h
    exact ⟨rfl, h⟩
  | succ m ih =>
    intro t h
    have hiter : (mp3Iter t).decoded = t.decoded ∧ (mp3Iter t).mp3Queue = [] := by
      obtain ⟨q, dn, st, pr, dec⟩ := t
      dsimp only at h
      subst h
      cases st <;> cases dn <;> simp [mp3Iter]
    show (mp3Run m (mp3Iter t)).decoded = t.decoded ∧ (mp3Run m (mp3Iter t)).mp3Queue = []
    obtain ⟨h1, h2⟩ := ih (mp3Iter t) hiter.2
    exact ⟨h1.trans hiter.1, h2⟩

/-- C8: after `Stop()` the pipeline queue is empty and the done marker is set,
and the payloads pending at that moment are never fed to the decoder
afterwards — however many passes the worker subsequently makes, its decoded
output stream never grows. -/
theorem C8_stop_discards_pending :
    ∀ (s : Mp3State) (n : Nat),
      (Stop s).mp3Queue = []
      ∧ (Stop s).mp3QueueDone = true
      ∧ (mp3Run n (Stop s)).decoded = s.decoded := by
  intro s n
  exact ⟨rfl, rfl, (mp3Run_empty_queue n (Stop s) rfl).1⟩

/-- C9: with `[p1, p2, p3]` queued, the done marker set and no stop, the
worker drains the queue strictly in order — the decoder receives the audio of
`p1`, then of `p2`, then of `p3` (a message without the marker contributes
nothing) — and afterwards, once the queue is empty, fires the success
completion and clears the done flag for the next session. -/
theorem C9_fifo_drain_then_success :
    ∀ (p1 p2 p3 : List Char),
      mp3Run 4 ⟨[p1, p2, p3], true, false, freshPromise, []⟩
        = ⟨[], false, false, ⟨true, some .success⟩,
            List.filterMap extractAudio [p1, p2, p3]⟩ := by
  intro p1 p2 p3
  rcases h1 : extractAudio p1 with _ | a1 <;>
    rcases h2 : extractAudio p2 with _ | a2 <;>
      rcases h3 : extractAudio p3 with _ | a3 <;>
        simp [mp3Run, mp3Iter, h1, h2, h3, SpeakComplete, freshPromise, List.filterMap]

end SpeechRestAPI
